import Mathlib

/-!
Verification of the polygon-drawer front end.

The repository has two near-duplicate React front-end variants:
`src/src/App.jsx` (with drag editing) and an unnamed variant without drag
editing.  We embed the pure state logic of both: points are modelled with
exact rational coordinates, and the source's `Math.sqrt(dx^2+dy^2) <= 10`
proximity test is modelled by the equivalent squared comparison
`dx^2 + dy^2 <= 100` (squaring is monotone on nonnegative reals).
-/

namespace PolygonDrawer

/-- A 2D point `{x, y}`. -/
structure Point where
  x : ℚ
  y : ℚ
deriving DecidableEq, Repr

def origin : Point := ⟨0, 0⟩

instance : Inhabited Point := ⟨origin⟩

/-- A finalized polygon record `{points, area}` as appended to the
`polygons` store by `handleClick`. -/
structure Polygon where
  points : List Point
  area : ℚ
deriving DecidableEq, Repr

instance : Inhabited Polygon := ⟨⟨[], 0⟩⟩

/-- Squared Euclidean distance between two points; the source computes
`Math.sqrt(Math.pow(x - px, 2) + Math.pow(y - py, 2))`. -/
def distSq (a b : Point) : ℚ := (a.x - b.x) ^ 2 + (a.y - b.y) ^ 2

/-- The source's proximity test `distance <= 10`, stated on squared
distances: `sqrt d <= 10` iff `d <= 100` for nonnegative `d`. -/
def withinRadius (c v : Point) : Bool := distSq c v ≤ 100

/-- Model of `calculateArea` from `src/src/App.jsx` lines 89-99: Shoelace loop with
wrap-around index `j = (i+1) % n`, returning `|area / 2|`, and `0` for
fewer than 3 points. -/
def calculateArea (polygonPoints : List Point) : ℚ :=
  if polygonPoints.length < 3 then 0
  else
    |((List.range polygonPoints.length).foldl
      (fun area i =>
        area
          + (polygonPoints.getD i origin).x
            * (polygonPoints.getD ((i + 1) % polygonPoints.length) origin).y
          - (polygonPoints.getD ((i + 1) % polygonPoints.length) origin).x
            * (polygonPoints.getD i origin).y)
      0) / 2|

/-- One cross term `xi*yj - xj*yi` of the Shoelace sum. -/
def cross (a b : Point) : ℚ := a.x * b.y - b.x * a.y

/-- The spec's Shoelace sum `Σ (xi*yi+1 − xi+1*yi)` over the cyclic vertex
sequence (index `i+1` wraps to `0`), written as a mathematical sum. -/
def shoelaceSum (ps : List Point) : ℚ :=
  ∑ i in Finset.range ps.length,
    cross (ps.getD i origin) (ps.getD ((i + 1) % ps.length) origin)

/-- Sum of cross terms over consecutive (non-cyclic) vertex pairs. -/
def pathSum : List Point → ℚ
  | a :: b :: rest => cross a b + pathSum (b :: rest)
  | _ => 0

/-- The result of `getPointAtPosition`: either a vertex of the in-progress
chain (`{type: "current", index}`) or a vertex of a stored polygon
(`{type: "polygon", index, polygonIndex}`). -/
inductive PointRef where
  | current (index : ℕ)
  | polygon (index : ℕ) (polygonIndex : ℕ)
deriving DecidableEq, Repr

/-- The first index `i` (scanning in index order) with
`withinRadius c pts[i]`; models the `for` loops of `getPointAtPosition`. -/
def firstWithin (c : Point) : List Point → Option ℕ
  | [] => none
  | q :: rest =>
    if withinRadius c q then some 0
    else (firstWithin c rest).map (· + 1)

/-- The outer loop of `getPointAtPosition` over stored polygons: returns
`(vertexIndex, polygonIndex)` of the first hit in insertion order. -/
def scanPolygons (c : Point) : List Polygon → Option (ℕ × ℕ)
  | [] => none
  | poly :: rest =>
    match firstWithin c poly.points with
    | some i => some (i, 0)
    | none => (scanPolygons c rest).map (fun r => (r.1, r.2 + 1))

/-- The React state of the drag-editing variant (`src/src/App.jsx`). -/
structure AppState where
  points : List Point
  mousePos : Option Point
  isDrawing : Bool
  polygons : List Polygon
  draggedPoint : Option PointRef
  hoveredPoint : Option PointRef
  cursorStyle : String
deriving DecidableEq, Repr

/-- Model of `getPointAtPosition` from `src/src/App.jsx` lines 102-127: scan the
current chain first, then the stored polygons; first hit wins. -/
def getPointAtPosition (s : AppState) (c : Point) : Option PointRef :=
  match firstWithin c s.points with
  | some i => some (PointRef.current i)
  | none =>
    match scanPolygons c s.polygons with
    | some (i, polygonIndex) => some (PointRef.polygon i polygonIndex)
    | none => none

/-- Model of `handleContextMenu` (`src/src/App.jsx` lines 169-179): unconditionally
appends the cursor to `points` and sets `isDrawing`. -/
def handleContextMenu (s : AppState) (c : Point) : AppState :=
  { s with points := s.points ++ [c], isDrawing := true }

/-- Model of `handleMouseMove` (`src/src/App.jsx` lines 181-224).  While dragging,
overwrite the targeted vertex (recomputing the owning polygon's area) and
return; otherwise record the preview point (when drawing) and recompute
the hover target and cursor style. -/
def handleMouseMove (s : AppState) (c : Point) : AppState :=
  match s.draggedPoint with
  | some (PointRef.current i) =>
    { s with points := s.points.set i c }
  | some (PointRef.polygon i polygonIndex) =>
    let poly := s.polygons.getD polygonIndex default
    let newPoints := poly.points.set i c
    { s with
      polygons := s.polygons.set polygonIndex
        { poly with points := newPoints, area := calculateArea newPoints } }
  | none =>
    let s1 := if s.isDrawing then { s with mousePos := some c } else s
    match getPointAtPosition s1 c with
    | some t => { s1 with hoveredPoint := some t, cursorStyle := "pointer" }
    | none => { s1 with hoveredPoint := none, cursorStyle := "crosshair" }

/-- Model of `handleMouseDown` (`src/src/App.jsx` lines 226-240), for a left-button
press: grab the handle under the cursor, if any. -/
def handleMouseDown (s : AppState) (c : Point) : AppState :=
  match getPointAtPosition s c with
  | some t => { s with draggedPoint := some t, cursorStyle := "grabbing" }
  | none => s

/-- Model of `handleMouseUp` (`src/src/App.jsx` lines 242-247): release the drag. -/
def handleMouseUp (s : AppState) : AppState :=
  match s.draggedPoint with
  | some _ =>
    { s with draggedPoint := none,
             cursorStyle := if s.hoveredPoint.isSome then "pointer" else "crosshair" }
  | none => s

/-- Model of `handleClick` (`src/src/App.jsx` lines 249-299): ignore the click on an
empty chain or during a drag; otherwise, if the cursor is within radius 10
of `points[0]`, finalize: append `{area, points}` to `polygons`, clear the
chain and the preview point, and stop drawing. -/
def handleClick (s : AppState) (c : Point) : AppState :=
  if s.points.length = 0 then s
  else if s.draggedPoint.isSome then s
  else if withinRadius c (s.points.headD origin) then
    { s with
      points := [],
      polygons := s.polygons ++ [{ points := s.points, area := calculateArea s.points }],
      isDrawing := false,
      mousePos := none }
  else s

end PolygonDrawer

namespace PolygonDrawerV2

open PolygonDrawer (Point Polygon origin withinRadius)

/-- The React state of the no-drag variant (`src/unnamed/part_000`). -/
structure AppState where
  points : List Point
  mousePos : Option Point
  isDrawing : Bool
  polygons : List Polygon
deriving DecidableEq, Repr

/-- Model of `calculateArea` from `src/unnamed/part_000` lines 81-91; textually the
same Shoelace loop as the drag-editing variant's. -/
def calculateArea (polygonPoints : List Point) : ℚ :=
  if polygonPoints.length < 3 then 0
  else
    |((List.range polygonPoints.length).foldl
      (fun area i =>
        area
          + (polygonPoints.getD i origin).x
            * (polygonPoints.getD ((i + 1) % polygonPoints.length) origin).y
          - (polygonPoints.getD ((i + 1) % polygonPoints.length) origin).x
            * (polygonPoints.getD i origin).y)
      0) / 2|

/-- Model of `handleContextMenu` (`src/unnamed/part_000` lines 133-143). -/
def handleContextMenu (s : AppState) (c : Point) : AppState :=
  { s with points := s.points ++ [c], isDrawing := true }

/-- Model of `handleMouseMove` (`src/unnamed/part_000` lines 145-153): record the
preview point while drawing, otherwise do nothing. -/
def handleMouseMove (s : AppState) (c : Point) : AppState :=
  if !s.isDrawing then s else { s with mousePos := some c }

/-- Model of `handleClick` (`src/unnamed/part_000` lines 155-202): like the
drag-editing variant's but with no drag guard. -/
def handleClick (s : AppState) (c : Point) : AppState :=
  if s.points.length = 0 then s
  else if withinRadius c (s.points.headD origin) then
    { s with
      points := [],
      polygons := s.polygons ++ [{ points := s.points, area := calculateArea s.points }],
      isDrawing := false,
      mousePos := none }
  else s

end PolygonDrawerV2

/-! ## Geometry lemmas: the Shoelace loop versus the mathematical sum -/

namespace PolygonDrawer

theorem foldl_add_sub (f g : ℕ → ℚ) (l : List ℕ) (init : ℚ) :
    l.foldl (fun a i => a + f i - g i) init = init + (l.map (fun i => f i - g i)).sum := by
  induction l generalizing init with
  | nil => simp
  | cons x xs ih => simp [ih]; ring

theorem sum_map_range (f : ℕ → ℚ) (n : ℕ) :
    ((List.range n).map f).sum = ∑ i in Finset.range n, f i := by
  induction n with
  | zero => simp
  | succ m ih => rw [List.range_succ, List.map_append, List.sum_append, Finset.sum_range_succ, ih]; simp

theorem foldl_eq_shoelaceSum (ps : List Point) :
    (List.range ps.length).foldl
      (fun area i =>
        area
          + (ps.getD i origin).x * (ps.getD ((i + 1) % ps.length) origin).y
          - (ps.getD ((i + 1) % ps.length) origin).x * (ps.getD i origin).y)
      0 = shoelaceSum ps := by
  rw [foldl_add_sub
        (fun i => (ps.getD i origin).x * (ps.getD ((i + 1) % ps.length) origin).y)
        (fun i => (ps.getD ((i + 1) % ps.length) origin).x * (ps.getD i origin).y),
      zero_add, sum_map_range]
  rfl

theorem calculateArea_eq_abs_shoelace (ps : List Point) :
    calculateArea ps = |shoelaceSum ps / 2| := by
  by_cases h : ps.length < 3
  · have hz : shoelaceSum ps = 0 := by
      match ps, h with
      | [], _ => simp [shoelaceSum]
      | [a], _ => simp [shoelaceSum, cross]
      | [a, b], _ => simp [shoelaceSum, cross, Finset.sum_range_succ]; ring
    simp [calculateArea, h, hz]
  · simp only [calculateArea, if_neg h, foldl_eq_shoelaceSum]

end PolygonDrawer

namespace PolygonDrawer

theorem cross_self (a : Point) : cross a a = 0 := by simp [cross]

theorem cross_antisymm (a b : Point) : cross b a = -cross a b := by unfold cross; ring

theorem pathSum_eq_sum (ps : List Point) :
    pathSum ps = ∑ i in Finset.range (ps.length - 1), cross (ps.getD i origin) (ps.getD (i + 1) origin) := by
  match ps with
  | [] => simp [pathSum]
  | [a] => simp [pathSum]
  | a :: b :: t =>
    have ih := pathSum_eq_sum (b :: t)
    have hlen : (a :: b :: t).length - 1 = ((b :: t).length - 1) + 1 := by simp
    rw [pathSum, ih, hlen, Finset.sum_range_succ']
    simp [List.getD_cons_succ, List.getD_cons_zero]
    ring

theorem getD_length_pred (l : List Point) (d : Point) (h : l ≠ []) :
    l.getD (l.length - 1) d = l.getLastD d := by
  induction l generalizing d with
  | nil => exact absurd rfl h
  | cons a t ih =>
    match t with
    | [] => rfl
    | b :: r =>
      have hlen : (a :: b :: r).length - 1 = ((b :: r).length - 1) + 1 := by simp
      rw [hlen, List.getD_cons_succ, ih d (by simp),
          List.getLastD_cons d b r, List.getLastD_cons d a (b :: r), List.getLastD_cons a b r]

theorem shoelace_decomp (ps : List Point) :
    shoelaceSum ps = pathSum ps + cross (ps.getLastD origin) (ps.headD origin) := by
  match ps with
  | [] => simp [shoelaceSum, pathSum, cross]
  | a :: t =>
    have hlen : (a :: t).length = t.length + 1 := rfl
    rw [shoelaceSum, hlen, Finset.sum_range_succ]
    have hwrap : (t.length + 1) % (t.length + 1) = 0 := Nat.mod_self _
    have hbody : ∀ i ∈ Finset.range t.length,
        cross ((a :: t).getD i origin) ((a :: t).getD ((i + 1) % (t.length + 1)) origin)
          = cross ((a :: t).getD i origin) ((a :: t).getD (i + 1) origin) := by
      intro i hi
      rw [Nat.mod_eq_of_lt (by simpa using Finset.mem_range.mp hi)]
    have hlast : (a :: t).getD t.length origin = (a :: t).getLastD origin := by
      have h := getD_length_pred (a :: t) origin (by simp)
      simpa using h
    rw [Finset.sum_congr rfl hbody, hwrap, pathSum_eq_sum, hlast]
    simp

theorem pathSum_snoc (l : List Point) (x : Point) :
    pathSum (l ++ [x]) = pathSum l + cross (l.getLastD x) x := by
  match l with
  | [] => simp [pathSum, cross_self]
  | [a] => simp [pathSum, List.getLastD]
  | a :: b :: t =>
    have ih := pathSum_snoc (b :: t) x
    have h1 : pathSum ((a :: b :: t) ++ [x]) = cross a b + pathSum ((b :: t) ++ [x]) := rfl
    have h2 : pathSum (a :: b :: t) = cross a b + pathSum (b :: t) := rfl
    rw [h1, ih, h2, List.getLastD_cons x b t, List.getLastD_cons x a (b :: t),
        List.getLastD_cons a b t]
    ring

theorem pathSum_reverse (l : List Point) : pathSum l.reverse = -pathSum l := by
  induction l with
  | nil => simp [pathSum]
  | cons a l ih =>
    rw [List.reverse_cons, pathSum_snoc, ih]
    match l with
    | [] => simp [pathSum, cross_self]
    | b :: t =>
      have hlast : (b :: t).reverse.getLastD a = b := by
        rw [List.getLastD_eq_getLast?, List.getLast?_reverse]
        rfl
      rw [hlast, pathSum, cross_antisymm]
      ring

theorem shoelace_reverse (ps : List Point) : shoelaceSum ps.reverse = -shoelaceSum ps := by
  rw [shoelace_decomp, shoelace_decomp, pathSum_reverse]
  have h1 : ps.reverse.getLastD origin = ps.headD origin := by
    rw [List.getLastD_eq_getLast?, List.getLast?_reverse, List.headD_eq_head?]
  have h2 : ps.reverse.headD origin = ps.getLastD origin := by
    rw [List.headD_eq_head?, List.head?_reverse, List.getLastD_eq_getLast?]
  rw [h1, h2, cross_antisymm]
  ring

end PolygonDrawer

/-! ## Claim theorems: the area function -/

namespace PolygonDrawer

/-- Claim C3: `calculateArea` equals the absolute value of the Shoelace sum
divided by 2 over the cyclic vertex sequence, returns exactly 0 for every
list of fewer than 3 points, and yields 16 on the square
`[(0,0),(4,0),(4,4),(0,4)]` and 6 on the triangle `[(0,0),(4,0),(0,3)]`. -/
theorem calculateArea_shoelace_spec :
    (∀ ps : List Point, calculateArea ps = |shoelaceSum ps / 2|)
    ∧ (∀ ps : List Point, ps.length < 3 → calculateArea ps = 0)
    ∧ calculateArea [⟨0, 0⟩, ⟨4, 0⟩, ⟨4, 4⟩, ⟨0, 4⟩] = 16
    ∧ calculateArea [⟨0, 0⟩, ⟨4, 0⟩, ⟨0, 3⟩] = 6 := by
  refine ⟨calculateArea_eq_abs_shoelace, ?_, ?_, ?_⟩
  · intro ps h
    simp [calculateArea, h]
  · simp [calculateArea, List.range_succ, origin]
    norm_num
  · simp [calculateArea, List.range_succ, origin]
    norm_num

/-- Witness for C3: the degenerate branch applied to a one-point list. -/
theorem calculateArea_shoelace_spec_witness :
    calculateArea [origin] = 0 :=
  calculateArea_shoelace_spec.2.1 [origin] (by decide)

/-- Claim C7: reversing the vertex order yields the same unsigned area. -/
theorem calculateArea_reverse (ps : List Point) :
    calculateArea ps.reverse = calculateArea ps := by
  rw [calculateArea_eq_abs_shoelace, calculateArea_eq_abs_shoelace, shoelace_reverse,
      neg_div, abs_neg]

/-- Claim C10: the area functions of the two front-end variants agree on
every list of points. -/
theorem calculateArea_variants_agree (ps : List Point) :
    PolygonDrawerV2.calculateArea ps = calculateArea ps := rfl

end PolygonDrawer

/-! ## Claim theorems: closing gestures -/

namespace PolygonDrawer

/-- A Drawing-mode state with the chain `[(0,0),(10,0),(10,10)]` and no
active drag, used to instantiate the closing-threshold claims. -/
def closeDemoState : AppState :=
  { points := [⟨0, 0⟩, ⟨10, 0⟩, ⟨10, 10⟩], mousePos := some ⟨10, 10⟩, isDrawing := true,
    polygons := [], draggedPoint := none, hoveredPoint := none, cursorStyle := "crosshair" }

/-- Claim C4: with a non-empty chain and no active drag, a click within
radius 10 of `chain[0]` finalizes (appends `{points, area}` to the store,
clears the chain and preview, leaves Drawing mode), and a click farther
than 10 is a no-op. -/
theorem handleClick_close_spec (s : AppState) (c : Point)
    (hdrag : s.draggedPoint = none) (hne : s.points ≠ []) :
    (withinRadius c (s.points.headD origin) = true →
      handleClick s c =
        { s with
            points := [],
            polygons := s.polygons ++ [{ points := s.points, area := calculateArea s.points }],
            isDrawing := false,
            mousePos := none })
    ∧ (withinRadius c (s.points.headD origin) = false → handleClick s c = s) := by
  have hlen : ¬ s.points.length = 0 := by simpa [List.length_eq_zero] using hne
  constructor
  · intro hw
    simp only [List.headD_eq_head?] at hw
    simp [handleClick, hlen, hdrag, hw]
  · intro hw
    simp only [List.headD_eq_head?] at hw
    simp [handleClick, hlen, hdrag, hw]

/-- Witness for C4: on chain `[(0,0),(10,0),(10,10)]` a close gesture at
`(2,2)` finalizes with area 50, and one at `(20,20)` is a no-op. -/
theorem handleClick_close_spec_witness :
    handleClick closeDemoState ⟨2, 2⟩ =
      { closeDemoState with
          points := [],
          polygons := closeDemoState.polygons
            ++ [{ points := closeDemoState.points, area := calculateArea closeDemoState.points }],
          isDrawing := false,
          mousePos := none }
    ∧ handleClick closeDemoState ⟨20, 20⟩ = closeDemoState :=
  ⟨(handleClick_close_spec closeDemoState ⟨2, 2⟩ rfl (by simp [closeDemoState])).1
      (by simp [closeDemoState, withinRadius, distSq, origin]; norm_num),
   (handleClick_close_spec closeDemoState ⟨20, 20⟩ rfl (by simp [closeDemoState])).2
      (by simp [closeDemoState, withinRadius, distSq, origin]; norm_num)⟩

end PolygonDrawer

namespace PolygonDrawer

/-- A Drawing-mode state with the two-vertex chain `[(0,0),(1,1)]` and no
active drag. -/
def shortChainState : AppState :=
  { points := [⟨0, 0⟩, ⟨1, 1⟩], mousePos := some ⟨1, 1⟩, isDrawing := true,
    polygons := [], draggedPoint := none, hoveredPoint := none, cursorStyle := "crosshair" }

/-- Claim C1 (counterexample): on the chain `[(0,0),(1,1)]`, a close
gesture exactly at `(0,0)` is NOT a no-op — `handleClick` has no
minimum-length guard, so it appends a degenerate polygon, clears the
chain, and leaves Drawing mode. -/
theorem handleClick_short_chain_counterexample :
    (handleClick shortChainState ⟨0, 0⟩).polygons.length = 1
    ∧ (handleClick shortChainState ⟨0, 0⟩).points = []
    ∧ (handleClick shortChainState ⟨0, 0⟩).isDrawing = false := by
  refine ⟨?_, ?_, ?_⟩ <;>
    simp [handleClick, shortChainState, withinRadius, distSq, origin]

/-- Claim C1 (amended): in both variants, a close gesture within radius 10
of `chain[0]` on a chain of fewer than 3 vertices finalizes a degenerate
polygon with area 0 — appending it to the store, clearing the chain and
preview, and leaving Drawing mode — instead of being a no-op. -/
theorem handleClick_short_chain_amended :
    (∀ (s : AppState) (c : Point), s.draggedPoint = none → s.points ≠ [] →
      s.points.length < 3 → withinRadius c (s.points.headD origin) = true →
      handleClick s c =
        { s with
            points := [],
            polygons := s.polygons ++ [{ points := s.points, area := 0 }],
            isDrawing := false,
            mousePos := none })
    ∧ (∀ (s : PolygonDrawerV2.AppState) (c : Point), s.points ≠ [] →
      s.points.length < 3 → withinRadius c (s.points.headD origin) = true →
      PolygonDrawerV2.handleClick s c =
        { s with
            points := [],
            polygons := s.polygons ++ [{ points := s.points, area := 0 }],
            isDrawing := false,
            mousePos := none }) := by
  constructor
  · intro s c hdrag hne h3 hw
    have harea : calculateArea s.points = 0 := by simp [calculateArea, h3]
    have hlen : ¬ s.points.length = 0 := by simpa [List.length_eq_zero] using hne
    simp only [List.headD_eq_head?] at hw
    simp [handleClick, hlen, hdrag, hw, harea]
  · intro s c hne h3 hw
    have harea : PolygonDrawerV2.calculateArea s.points = 0 := by
      simp [PolygonDrawerV2.calculateArea, h3]
    have hlen : ¬ s.points.length = 0 := by simpa [List.length_eq_zero] using hne
    simp only [List.headD_eq_head?] at hw
    simp [PolygonDrawerV2.handleClick, hlen, hw, harea]

/-- Witness for the amended C1: the concrete two-vertex chain from the
spec's own test vector, closed at `(0,0)`. -/
theorem handleClick_short_chain_amended_witness :
    handleClick shortChainState ⟨0, 0⟩ =
      { shortChainState with
          points := [],
          polygons := shortChainState.polygons
            ++ [{ points := shortChainState.points, area := 0 }],
          isDrawing := false,
          mousePos := none } :=
  handleClick_short_chain_amended.1 shortChainState ⟨0, 0⟩ rfl
    (by simp [shortChainState]) (by simp [shortChainState])
    (by simp [shortChainState, withinRadius, distSq, origin])

/-- A state with an active drag on vertex 0 of the in-progress chain. -/
def draggingState : AppState :=
  { points := [⟨0, 0⟩, ⟨30, 0⟩, ⟨30, 30⟩], mousePos := none, isDrawing := true,
    polygons := [], draggedPoint := some (PointRef.current 0), hoveredPoint := none,
    cursorStyle := "grabbing" }

/-- Claim C5 (counterexample): with a drag active, `handleContextMenu`
(PlaceVertex) is NOT rejected — it appends the cursor to the chain. -/
theorem placeVertex_during_drag_counterexample :
    (handleContextMenu draggingState ⟨5, 5⟩).points ≠ draggingState.points := by
  simp [handleContextMenu, draggingState]

/-- Claim C5 (amended): while a drag is active, `TryClose` (`handleClick`)
is rejected with no state change, but `PlaceVertex` (`handleContextMenu`)
is not guarded: it appends the cursor to the chain and sets Drawing
mode. -/
theorem gesture_during_drag_amended (s : AppState) (c : Point)
    (hdrag : s.draggedPoint.isSome = true) :
    handleClick s c = s
    ∧ handleContextMenu s c = { s with points := s.points ++ [c], isDrawing := true } := by
  constructor
  · by_cases h0 : s.points.length = 0 <;> simp [handleClick, h0, hdrag]
  · rfl

/-- Witness for the amended C5: the dragging state above, with a click and
a context-menu gesture at `(5,5)`. -/
theorem gesture_during_drag_amended_witness :
    handleClick draggingState ⟨5, 5⟩ = draggingState
    ∧ handleContextMenu draggingState ⟨5, 5⟩ =
      { draggingState with
          points := draggingState.points ++ [⟨5, 5⟩], isDrawing := true } :=
  gesture_during_drag_amended draggingState ⟨5, 5⟩ rfl

end PolygonDrawer

/-! ## Claim theorems: dragging -/

namespace PolygonDrawer

theorem getD_set_self {α : Type} (l : List α) (n : ℕ) (q d : α) (h : n < l.length) :
    (l.set n q).getD n d = q := by
  rw [List.getD_eq_getElem _ _ (by simpa using h), List.getElem_set_self]

theorem getD_set_ne {α : Type} (l : List α) (n m : ℕ) (q d : α) (h : n ≠ m) :
    (l.set n q).getD m d = l.getD m d := by
  by_cases hm : m < l.length
  · rw [List.getD_eq_getElem _ _ (by simpa using hm), List.getD_eq_getElem _ _ hm,
        List.getElem_set_ne h]
  · rw [List.getD_eq_default _ _ (by simpa using Nat.le_of_not_lt hm),
        List.getD_eq_default _ _ (Nat.le_of_not_lt hm)]

theorem handleMouseMove_drag_polygon (s : AppState) (c : Point) (i pi : ℕ)
    (hdrag : s.draggedPoint = some (PointRef.polygon i pi)) :
    (handleMouseMove s c).polygons
      = s.polygons.set pi
          { points := (s.polygons.getD pi default).points.set i c,
            area := calculateArea ((s.polygons.getD pi default).points.set i c) } := by
  simp [handleMouseMove, hdrag]

/-- Claim C2: after a `ContinueDrag` step targeting vertex `i` of stored
polygon `pi`, the cached `area` of that polygon equals `calculateArea` of
its (updated) points — the cache is recomputed in the same step. -/
theorem handleMouseMove_area_fresh (s : AppState) (c : Point) (i pi : ℕ)
    (hdrag : s.draggedPoint = some (PointRef.polygon i pi))
    (hpi : pi < s.polygons.length) :
    ((handleMouseMove s c).polygons.getD pi default).area
      = calculateArea ((handleMouseMove s c).polygons.getD pi default).points := by
  rw [handleMouseMove_drag_polygon s c i pi hdrag,
      getD_set_self _ _ _ _ hpi]

/-- A state dragging vertex 0 of the stored square polygon. -/
def dragSquareState : AppState :=
  { points := [], mousePos := none, isDrawing := false,
    polygons := [{ points := [⟨0, 0⟩, ⟨4, 0⟩, ⟨4, 4⟩, ⟨0, 4⟩], area := 16 }],
    draggedPoint := some (PointRef.polygon 0 0), hoveredPoint := none,
    cursorStyle := "grabbing" }

/-- Witness for C2: dragging vertex 0 of the stored square to `(2,2)`. -/
theorem handleMouseMove_area_fresh_witness :
    ((handleMouseMove dragSquareState ⟨2, 2⟩).polygons.getD 0 default).area
      = calculateArea ((handleMouseMove dragSquareState ⟨2, 2⟩).polygons.getD 0 default).points :=
  handleMouseMove_area_fresh dragSquareState ⟨2, 2⟩ 0 0 rfl (by simp [dragSquareState])

/-- Claim C9: pointer motion while Drawing with no active drag records only
the preview point: in both variants the chain, the polygon store and the
drawing mode are untouched, and the preview point becomes the cursor. -/
theorem updatePreview_frame :
    (∀ (s : AppState) (c : Point), s.draggedPoint = none → s.isDrawing = true →
      (handleMouseMove s c).points = s.points
      ∧ (handleMouseMove s c).polygons = s.polygons
      ∧ (handleMouseMove s c).isDrawing = s.isDrawing
      ∧ (handleMouseMove s c).mousePos = some c)
    ∧ (∀ (s : PolygonDrawerV2.AppState) (c : Point), s.isDrawing = true →
      PolygonDrawerV2.handleMouseMove s c = { s with mousePos := some c }) := by
  constructor
  · intro s c hdrag hdraw
    obtain ⟨pts, mp, dr, polys, dp, hv, cs⟩ := s
    simp only at hdrag hdraw
    subst hdrag
    subst hdraw
    rcases hgp : getPointAtPosition ⟨pts, some c, true, polys, none, hv, cs⟩ c with _ | tgt <;>
      simp [handleMouseMove, hgp]
  · intro s c hdraw
    simp [PolygonDrawerV2.handleMouseMove, hdraw]

/-- Witness for C9: pointer motion at `(7,7)` in the Drawing-mode state. -/
theorem updatePreview_frame_witness :
    (handleMouseMove closeDemoState ⟨7, 7⟩).points = closeDemoState.points
    ∧ (handleMouseMove closeDemoState ⟨7, 7⟩).polygons = closeDemoState.polygons
    ∧ (handleMouseMove closeDemoState ⟨7, 7⟩).isDrawing = closeDemoState.isDrawing
    ∧ (handleMouseMove closeDemoState ⟨7, 7⟩).mousePos = some ⟨7, 7⟩ :=
  updatePreview_frame.1 closeDemoState ⟨7, 7⟩ rfl rfl

end PolygonDrawer

namespace PolygonDrawer

theorem handleMouseMove_polygons_length (t : AppState) (p : Point) :
    (handleMouseMove t p).polygons.length = t.polygons.length := by
  obtain ⟨pts, mp, dr, polys, dp, hv, cs⟩ := t
  cases dp with
  | none =>
    cases dr with
    | false =>
      rcases hgp : getPointAtPosition ⟨pts, mp, false, polys, none, hv, cs⟩ p with _ | tgt <;>
        simp [handleMouseMove, hgp]
    | true =>
      rcases hgp : getPointAtPosition ⟨pts, some p, true, polys, none, hv, cs⟩ p with _ | tgt <;>
        simp [handleMouseMove, hgp]
  | some r =>
    cases r with
    | current i => simp [handleMouseMove]
    | polygon i pi => simp [handleMouseMove, List.length_set]

/-- Claim C8: a `ContinueDrag` step on vertex `i` of stored polygon `pi`
changes only that vertex and that polygon's cached area: every other
polygon, every other vertex, the vertex count, the store length and the
rest of the state are unchanged; moreover the store is append-only across
all handlers — only `handleClick`'s finalize branch ever appends, and
nothing removes. -/
theorem continueDrag_polygon_frame (s : AppState) (c : Point) (i pi : ℕ)
    (hdrag : s.draggedPoint = some (PointRef.polygon i pi))
    (hpi : pi < s.polygons.length)
    (hi : i < (s.polygons.getD pi default).points.length) :
    (handleMouseMove s c).polygons.length = s.polygons.length
    ∧ (∀ pk, pk ≠ pi →
        (handleMouseMove s c).polygons.getD pk default = s.polygons.getD pk default)
    ∧ ((handleMouseMove s c).polygons.getD pi default).points.length
        = (s.polygons.getD pi default).points.length
    ∧ (∀ k, k ≠ i →
        ((handleMouseMove s c).polygons.getD pi default).points.getD k origin
          = (s.polygons.getD pi default).points.getD k origin)
    ∧ ((handleMouseMove s c).polygons.getD pi default).points.getD i origin = c
    ∧ (handleMouseMove s c).points = s.points
    ∧ (handleMouseMove s c).mousePos = s.mousePos
    ∧ (handleMouseMove s c).isDrawing = s.isDrawing
    ∧ (handleMouseMove s c).draggedPoint = s.draggedPoint
    ∧ (∀ (t : AppState) (p : Point), (handleContextMenu t p).polygons = t.polygons)
    ∧ (∀ (t : AppState) (p : Point), (handleMouseDown t p).polygons = t.polygons)
    ∧ (∀ t : AppState, (handleMouseUp t).polygons = t.polygons)
    ∧ (∀ (t : AppState) (p : Point),
        (handleMouseMove t p).polygons.length = t.polygons.length)
    ∧ (∀ (t : AppState) (p : Point),
        (handleClick t p).polygons = t.polygons
        ∨ (handleClick t p).polygons
            = t.polygons ++ [{ points := t.points, area := calculateArea t.points }]) := by
  have hset := handleMouseMove_drag_polygon s c i pi hdrag
  refine ⟨?_, ?_, ?_, ?_, ?_, ?_, ?_, ?_, ?_, ?_, ?_, ?_, ?_, ?_⟩
  · rw [hset, List.length_set]
  · intro pk hne
    rw [hset, getD_set_ne _ _ _ _ _ (Ne.symm hne)]
  · rw [hset, getD_set_self _ _ _ _ hpi, List.length_set]
  · intro k hk
    rw [hset, getD_set_self _ _ _ _ hpi]
    exact getD_set_ne _ _ _ _ _ (Ne.symm hk)
  · rw [hset, getD_set_self _ _ _ _ hpi]
    exact getD_set_self _ _ _ _ hi
  · simp [handleMouseMove, hdrag]
  · simp [handleMouseMove, hdrag]
  · simp [handleMouseMove, hdrag]
  · simp [handleMouseMove, hdrag]
  · intro t p
    rfl
  · intro t p
    rcases h : getPointAtPosition t p with _ | tgt <;> simp [handleMouseDown, h]
  · intro t
    rcases h : t.draggedPoint with _ | tgt <;> simp [handleMouseUp, h]
  · intro t p
    exact handleMouseMove_polygons_length t p
  · intro t p
    by_cases h0 : t.points.length = 0
    · left
      simp [handleClick, h0]
    · by_cases h1 : t.draggedPoint.isSome
      · left
        simp [handleClick, h0, h1]
      · by_cases h2 : withinRadius p (t.points.headD origin) = true
        · right
          simp only [List.headD_eq_head?] at h2
          simp [handleClick, h0, h1, h2]
        · left
          simp only [List.headD_eq_head?] at h2
          simp [handleClick, h0, h1, h2]

/-- Witness for C8: dragging vertex 0 of the stored square to `(2,2)`
keeps the store length and overwrites exactly that vertex. -/
theorem continueDrag_polygon_frame_witness :
    (handleMouseMove dragSquareState ⟨2, 2⟩).polygons.length = dragSquareState.polygons.length
    ∧ ((handleMouseMove dragSquareState ⟨2, 2⟩).polygons.getD 0 default).points.getD 0 origin
        = ⟨2, 2⟩ :=
  ⟨(continueDrag_polygon_frame dragSquareState ⟨2, 2⟩ 0 0 rfl
      (by simp [dragSquareState]) (by simp [dragSquareState])).1,
   (continueDrag_polygon_frame dragSquareState ⟨2, 2⟩ 0 0 rfl
      (by simp [dragSquareState]) (by simp [dragSquareState])).2.2.2.2.1⟩

end PolygonDrawer

/-! ## Claim theorems: hit-testing -/

namespace PolygonDrawer

theorem firstWithin_eq_none (c : Point) (pts : List Point) :
    firstWithin c pts = none ↔ ∀ q ∈ pts, withinRadius c q = false := by
  induction pts with
  | nil => simp [firstWithin]
  | cons q rest ih =>
    by_cases hq : withinRadius c q = true
    · simp [firstWithin, hq]
    · have hq' : withinRadius c q = false := by simpa using hq
      simp [firstWithin, hq', ih]

theorem firstWithin_eq_some (c : Point) (pts : List Point) (j : ℕ)
    (h : firstWithin c pts = some j) :
    j < pts.length ∧ withinRadius c (pts.getD j origin) = true
      ∧ ∀ k, k < j → withinRadius c (pts.getD k origin) = false := by
  induction pts generalizing j with
  | nil => simp [firstWithin] at h
  | cons q rest ih =>
    by_cases hq : withinRadius c q = true
    · simp [firstWithin, hq] at h
      subst h
      exact ⟨by simp, by simpa using hq, fun k hk => absurd hk (Nat.not_lt_zero k)⟩
    · have hq' : withinRadius c q = false := by simpa using hq
      simp [firstWithin, hq'] at h
      obtain ⟨j', hj', rfl⟩ := h
      obtain ⟨h1, h2, h3⟩ := ih j' hj'
      refine ⟨by simpa using Nat.succ_lt_succ h1, by simpa using h2, ?_⟩
      intro k hk
      cases k with
      | zero => simpa using hq'
      | succ k' => simpa using h3 k' (by omega)

theorem scanPolygons_eq_none (c : Point) (polys : List Polygon) :
    scanPolygons c polys = none
      ↔ ∀ P ∈ polys, ∀ q ∈ P.points, withinRadius c q = false := by
  induction polys with
  | nil => simp [scanPolygons]
  | cons P rest ih =>
    rcases hf : firstWithin c P.points with _ | i0
    · have hall := (firstWithin_eq_none c P.points).mp hf
      simp [scanPolygons, hf, ih, hall]
      exact fun _ => hall
    · simp [scanPolygons, hf]
      intro hall
      have hn := (firstWithin_eq_none c P.points).mpr hall
      rw [hn] at hf
      exact Option.noConfusion hf

theorem scanPolygons_eq_some (c : Point) (polys : List Polygon) (i pi : ℕ)
    (h : scanPolygons c polys = some (i, pi)) :
    pi < polys.length
    ∧ (∀ pk, pk < pi → ∀ q ∈ (polys.getD pk default).points, withinRadius c q = false)
    ∧ i < (polys.getD pi default).points.length
    ∧ withinRadius c ((polys.getD pi default).points.getD i origin) = true
    ∧ ∀ k, k < i →
        withinRadius c ((polys.getD pi default).points.getD k origin) = false := by
  induction polys generalizing i pi with
  | nil => simp [scanPolygons] at h
  | cons P rest ih =>
    rcases hf : firstWithin c P.points with _ | i0
    · simp [scanPolygons, hf] at h
      obtain ⟨i', pi', hsc, rfl, rfl⟩ := h
      obtain ⟨h1, h2, h3, h4, h5⟩ := ih i' pi' hsc
      refine ⟨by simpa using Nat.succ_lt_succ h1, ?_, by simpa using h3,
        by simpa using h4, by simpa using h5⟩
      intro pk hpk
      cases pk with
      | zero =>
        intro q hq
        simpa using (firstWithin_eq_none c P.points).mp hf q hq
      | succ pk' =>
        intro q hq
        exact h2 pk' (by omega) q (by simpa using hq)
    · simp [scanPolygons, hf] at h
      obtain ⟨hi0, hpi0⟩ := h
      subst hi0
      subst hpi0
      obtain ⟨h1, h2, h3⟩ := firstWithin_eq_some c P.points i0 hf
      exact ⟨by simp, fun pk hpk => absurd hpk (Nat.not_lt_zero pk),
        by simpa using h1, by simpa using h2, by simpa using h3⟩

end PolygonDrawer

namespace PolygonDrawer

/-- Claim C6: `getPointAtPosition` scans the in-progress chain first and
returns the first chain vertex within radius 10; only when no chain vertex
is within the radius does it scan stored polygons in insertion order
(vertices in index order) and return the first match; when nothing is
within the radius it returns `none`.  In particular a chain vertex always
beats any stored-polygon vertex. -/
theorem getPointAtPosition_priority (s : AppState) (c : Point) :
    ((∃ q ∈ s.points, withinRadius c q = true) →
      ∃ j, getPointAtPosition s c = some (PointRef.current j)
        ∧ j < s.points.length
        ∧ withinRadius c (s.points.getD j origin) = true
        ∧ ∀ k, k < j → withinRadius c (s.points.getD k origin) = false)
    ∧ ((∀ q ∈ s.points, withinRadius c q = false) →
        (∃ P ∈ s.polygons, ∃ q ∈ P.points, withinRadius c q = true) →
        ∃ i pi, getPointAtPosition s c = some (PointRef.polygon i pi)
          ∧ pi < s.polygons.length
          ∧ (∀ pk, pk < pi →
              ∀ q ∈ (s.polygons.getD pk default).points, withinRadius c q = false)
          ∧ i < (s.polygons.getD pi default).points.length
          ∧ withinRadius c ((s.polygons.getD pi default).points.getD i origin) = true
          ∧ ∀ k, k < i →
              withinRadius c ((s.polygons.getD pi default).points.getD k origin) = false)
    ∧ ((∀ q ∈ s.points, withinRadius c q = false) →
        (∀ P ∈ s.polygons, ∀ q ∈ P.points, withinRadius c q = false) →
        getPointAtPosition s c = none) := by
  refine ⟨?_, ?_, ?_⟩
  · intro hex
    have hne : ¬ firstWithin c s.points = none := by
      rw [firstWithin_eq_none]
      obtain ⟨q, hq, hw⟩ := hex
      intro hall
      rw [hall q hq] at hw
      exact Bool.noConfusion hw
    obtain ⟨j, hj⟩ := Option.ne_none_iff_exists'.mp hne
    obtain ⟨h1, h2, h3⟩ := firstWithin_eq_some c s.points j hj
    exact ⟨j, by simp [getPointAtPosition, hj], h1, h2, h3⟩
  · intro hchain hex
    have hcn : firstWithin c s.points = none := (firstWithin_eq_none c s.points).mpr hchain
    have hne : ¬ scanPolygons c s.polygons = none := by
      rw [scanPolygons_eq_none]
      obtain ⟨P, hP, q, hq, hw⟩ := hex
      intro hall
      rw [hall P hP q hq] at hw
      exact Bool.noConfusion hw
    obtain ⟨⟨i, pi⟩, hs⟩ := Option.ne_none_iff_exists'.mp hne
    obtain ⟨h1, h2, h3, h4, h5⟩ := scanPolygons_eq_some c s.polygons i pi hs
    exact ⟨i, pi, by simp [getPointAtPosition, hcn, hs], h1, h2, h3, h4, h5⟩
  · intro hchain hpolys
    have hcn : firstWithin c s.points = none := (firstWithin_eq_none c s.points).mpr hchain
    have hsn : scanPolygons c s.polygons = none := (scanPolygons_eq_none c s.polygons).mpr hpolys
    simp [getPointAtPosition, hcn, hsn]

/-- A state where the cursor at `(1,1)` is within radius 10 of both the
chain vertex `(0,0)` and the stored polygon's vertex `(3,3)`. -/
def overlapState : AppState :=
  { points := [⟨0, 0⟩], mousePos := none, isDrawing := true,
    polygons := [{ points := [⟨3, 3⟩], area := 0 }],
    draggedPoint := none, hoveredPoint := none, cursorStyle := "crosshair" }

/-- Witness for C6: with overlapping handles the chain vertex wins. -/
theorem getPointAtPosition_priority_witness :
    ∃ j, getPointAtPosition overlapState ⟨1, 1⟩ = some (PointRef.current j)
      ∧ j < overlapState.points.length
      ∧ withinRadius ⟨1, 1⟩ (overlapState.points.getD j origin) = true
      ∧ ∀ k, k < j → withinRadius ⟨1, 1⟩ (overlapState.points.getD k origin) = false :=
  (getPointAtPosition_priority overlapState ⟨1, 1⟩).1
    ⟨⟨0, 0⟩, by simp [overlapState], by simp [withinRadius, distSq]; norm_num⟩

end PolygonDrawer
